import Mathlib

/-!
Verification of the `storage` package of the osv indexer (docker/indexer/storage)
and of the bulk datastore-remover tool (tools/datastore-remover/main.go).

The Go code is shallowly embedded: byte slices become `List Nat` (each entry a
byte value), the datastore becomes an association list from keys to records in
which a later `Put` for a key shadows the earlier one (lookup takes the most
recent binding), and the datastore client's fallible operations are
parameterised by failure oracles.  A Go panic (out-of-range slice index) is
modelled as `Option.none`, distinct from an error return which is modelled with
`Except`.
-/

set_option autoImplicit false

namespace OsvStorage

/-- A single file result produced by the processing stage:
`processing.FileResult` carries a path and the file's content hash. -/
structure FileResult where
  path : String
  hash : List Nat
deriving DecidableEq, Repr

/-- A node of the aggregate hash tree: `processing.TreeNode` with fields
`NodeHash`, `FilesContained` and `Height`. -/
structure TreeNode where
  nodeHash : List Nat
  filesContained : Nat
  height : Nat
deriving DecidableEq, Repr

/-- The repository metadata produced by the preparation stage
(`preparation.Result`), restricted to the fields read by the storage package.
Go's `time.Time` field `When` is abstracted to a `Nat` timestamp. -/
structure RepoInfo where
  name : String
  baseCPE : String
  version : String
  commit : List Nat
  commitTag : String
  whenTime : Nat
  repoType : String
  addr : String
  fileExts : List String
deriving DecidableEq, Repr

/-- The `document` struct of the storage package: one repository entry
in datastore. -/
structure document where
  name : String
  baseCPE : String
  version : String
  commit : List Nat
  tag : String
  whenTime : Nat
  repoType : String
  repoAddr : String
  fileExts : List String
  fileHashType : String
deriving DecidableEq, Repr

/-- The `result` struct of the storage package: one bucket result record. -/
structure result where
  bucketHash : List Nat
  path : List String
  hash : List (List Nat)
deriving DecidableEq, Repr

/-! ### Key formats

Go formats keys with `fmt.Sprintf`; `%x` on a byte slice prints each byte as
two lowercase hex digits, `%s` is the string itself and `%d` the decimal
representation. -/

/-- One hex digit (lowercase), used by the `%x` verb. -/
def hexChar (n : Nat) : Char := Nat.digitChar (n % 16)

/-- The `%x` rendering of one byte: exactly two lowercase hex digits. -/
def byteHex (b : Nat) : String := String.mk [hexChar (b / 16), hexChar b]

/-- The `%x` rendering of a byte slice. -/
def bytesHex (bs : List Nat) : String := String.join (bs.map byteHex)

/-- Datastore kind of documents: `docKind = "RepoIndex"`. -/
def docKind : String := "RepoIndex"

/-- Datastore kind of bucket results: `resultKind = "RepoIndexBucket"`. -/
def resultKind : String := "RepoIndexBucket"

/-- Datastore kind of tree nodes: `treeKind = "RepoIndexResultTree"`. -/
def treeKind : String := "RepoIndexResultTree"

/-- `fmt.Sprintf(docKeyFmt, addr, hashType, commit)` with
`docKeyFmt = "%s-%s-%x"` (Address-HashType-CommitHash). -/
def docKeyStr (addr hashType : String) (commit : List Nat) : String :=
  addr ++ "-" ++ hashType ++ "-" ++ bytesHex commit

/-- `fmt.Sprintf(resultKeyFmt, bucketHash, hashType)` with
`resultKeyFmt = "%x-%s"` (BucketHash-HashType). -/
def resultKeyStr (bucketHash : List Nat) (hashType : String) : String :=
  bytesHex bucketHash ++ "-" ++ hashType

/-- `fmt.Sprintf(treeKeyFmt, nodeHash, hashType, filesContained, height)` with
`treeKeyFmt = "%x-%s-%d-%d"` (NodeHash-HashType-FilesContained-Height). -/
def treeKeyStr (nodeHash : List Nat) (hashType : String)
    (filesContained height : Nat) : String :=
  bytesHex nodeHash ++ "-" ++ hashType ++ "-" ++ toString filesContained
    ++ "-" ++ toString height

/-- The kind/name pair of a datastore name key. -/
structure BaseKey where
  kind : String
  name : String
deriving DecidableEq, Repr

/-- A datastore name key with an optional parent.  The storage package only
ever builds keys whose parent is a root-level document key, so the ancestor
chain is modelled one level deep. -/
structure Key where
  base : BaseKey
  parent : Option BaseKey
deriving DecidableEq, Repr

/-- `datastore.NameKey(kind, name, parent)`. -/
def NameKey (kind name : String) (parent : Option BaseKey) : Key :=
  ⟨⟨kind, name⟩, parent⟩

/-- A record stored in datastore: one of the three entity kinds written by the
storage package. -/
inductive Record where
  | doc (d : document)
  | res (r : result)
  | tree (n : TreeNode)
deriving DecidableEq, Repr

/-- The datastore contents: an association list from keys to records in which
the first binding for a key is the current one (a `Put` prepends, shadowing
any older binding for the same key). -/
abbrev DS := List (Key × Record)

/-- Point lookup: the most recent record written under `k`, if any. -/
def dsGet (st : DS) (k : Key) : Option Record :=
  (List.find? (fun p => decide (p.1 = k)) st).map (fun p => p.2)

/-- Point write: the new binding shadows any previous binding for `k`. -/
def dsPut (st : DS) (k : Key) (r : Record) : DS := (k, r) :: st

/-- Apply a sequence of buffered writes (in order) to the store. -/
def applyWrites (st : DS) (ws : List (Key × Record)) : DS :=
  ws.foldl (fun s kr => dsPut s kr.1 kr.2) st

/-! ### newResult / newDoc -/

/-- `newResult(results, bucketHash)`: collects the paths and hashes of the
bucket's file results, in order, into one `result` record. -/
def newResult (results : List FileResult) (bucketHash : List Nat) : result :=
  { bucketHash := bucketHash
    path := results.map (fun r => r.path)
    hash := results.map (fun r => r.hash) }

/-- The loop of `newDoc` over `bucketResults` (`for i, v := range bucketResults`).
`all` is the whole `bucketResults` list (the loop guard reads
`len(bucketResults)`, not the current group), `i` the current index and
`groups` the remaining iterations.  Indexing `baseTreeLayer[i]` out of range is
a Go panic, modelled as `none`. -/
def newDocLoop (all : List (List FileResult)) (baseTreeLayer : List TreeNode)
    (i : Nat) : List (List FileResult) → Option (List result)
  | [] => some []
  | v :: rest =>
    if all.length = 0 then
      newDocLoop all baseTreeLayer (i + 1) rest
    else
      match baseTreeLayer.get? i with
      | none => none
      | some node =>
        (newDocLoop all baseTreeLayer (i + 1) rest).map
          (fun rs => newResult v node.nodeHash :: rs)

/-- `newDoc(repoInfo, hashType, bucketResults, baseTreeLayer)`: builds the
document from the repository metadata and one `result` per bucket group,
keyed by the corresponding height-0 tree node hash.  `none` is the Go panic on
an out-of-range `baseTreeLayer[i]`. -/
def newDoc (repoInfo : RepoInfo) (hashType : String)
    (bucketResults : List (List FileResult)) (baseTreeLayer : List TreeNode) :
    Option (document × List result) :=
  (newDocLoop bucketResults baseTreeLayer 0 bucketResults).map fun rs =>
    ({ name := repoInfo.name
       baseCPE := repoInfo.baseCPE
       version := repoInfo.version
       commit := repoInfo.commit
       tag := repoInfo.commitTag
       whenTime := repoInfo.whenTime
       repoType := repoInfo.repoType
       repoAddr := repoInfo.addr
       fileExts := repoInfo.fileExts
       fileHashType := hashType }, rs)

/-- The document record `newDoc` builds from the repository metadata. -/
def docOf (repoInfo : RepoInfo) (hashType : String) : document :=
  { name := repoInfo.name
    baseCPE := repoInfo.baseCPE
    version := repoInfo.version
    commit := repoInfo.commit
    tag := repoInfo.commitTag
    whenTime := repoInfo.whenTime
    repoType := repoInfo.repoType
    repoAddr := repoInfo.addr
    fileExts := repoInfo.fileExts
    fileHashType := hashType }

/-! ### Store.Store -/

/-- The document key built at the top of `Store.Store`:
`datastore.NameKey(docKind, fmt.Sprintf(docKeyFmt, repoInfo.Addr, hashType,
repoInfo.Commit), nil)`. -/
def docKeyOf (addr hashType : String) (commit : List Nat) : Key :=
  NameKey docKind (docKeyStr addr hashType commit) none

/-- The buffered write of one bucket result inside the transaction:
`tx.Put(datastore.NameKey(resultKind, fmt.Sprintf(resultKeyFmt, r.BucketHash,
hashType), docKey), r)`. -/
def resultWrite (dk : BaseKey) (hashType : String) (r : result) :
    Key × Record :=
  (NameKey resultKind (resultKeyStr r.bucketHash hashType) (some dk),
   Record.res r)

/-- The buffered write of one tree node inside the transaction:
`datastore.NameKey(treeKind, fmt.Sprintf(treeKeyFmt, node.NodeHash, hashType,
node.FilesContained, node.Height), docKey)`. -/
def treeWrite (dk : BaseKey) (hashType : String) (n : TreeNode) :
    Key × Record :=
  (NameKey treeKind (treeKeyStr n.nodeHash hashType n.filesContained n.height)
     (some dk),
   Record.tree n)

/-- One layer's contribution to the transaction: nodes with
`FilesContained == 0` are skipped (`continue`), the rest go into one
`tx.PutMulti` in order. -/
def layerWrites (dk : BaseKey) (hashType : String) (layer : List TreeNode) :
    List (Key × Record) :=
  (layer.filter (fun n => decide (n.filesContained ≠ 0))).map
    (treeWrite dk hashType)

/-- The full, ordered sequence of writes `Store.Store` issues inside its
transaction: the document, then one write per bucket result, then the
filtered tree nodes layer by layer.  `none` models the panics before and
inside `newDoc`: `treeNodes[0]` on an empty slice and `baseTreeLayer[i]` out
of range. -/
def storeWrites (repoInfo : RepoInfo) (hashType : String)
    (bucketResults : List (List FileResult))
    (treeNodes : List (List TreeNode)) : Option (List (Key × Record)) :=
  match treeNodes.head? with
  | none => none
  | some layer0 =>
    (newDoc repoInfo hashType bucketResults layer0).map fun dr =>
      let dk := docKeyOf repoInfo.addr hashType repoInfo.commit
      (dk, Record.doc dr.1)
        :: (dr.2.map (resultWrite dk.base hashType)
            ++ (treeNodes.map (layerWrites dk.base hashType)).flatten)

/-- Runs the transaction body: each buffered `Put`/`PutMulti` is checked
against the failure oracle in order; the first failure makes the body return
that error. -/
def txPutAll (failPut : Key → Option String) :
    List (Key × Record) → Except String Unit
  | [] => Except.ok ()
  | kr :: rest =>
    match failPut kr.1 with
    | some e => Except.error e
    | none => txPutAll failPut rest

/-- `dsCl.RunInTransaction`: if the transaction body returns an error the
transaction is aborted and the store is untouched; otherwise all buffered
writes are committed together. -/
def RunInTransaction (st : DS) (failPut : Key → Option String)
    (ws : List (Key × Record)) : Except String Unit × DS :=
  match txPutAll failPut ws with
  | Except.error e => (Except.error e, st)
  | Except.ok () => (Except.ok (), applyWrites st ws)

/-- `Store.Store(ctx, repoInfo, hashType, bucketResults, treeNodes)`:
computes the document key, builds the document and results with `newDoc`
(possibly panicking, `none`), and runs all writes in one transaction.
The result pairs the returned error value with the datastore state after the
call. -/
def StoreStore (st : DS) (failPut : Key → Option String)
    (repoInfo : RepoInfo) (hashType : String)
    (bucketResults : List (List FileResult))
    (treeNodes : List (List TreeNode)) : Option (Except String Unit × DS) :=
  (storeWrites repoInfo hashType bucketResults treeNodes).map
    (RunInTransaction st failPut)

/-! ### Store.Exists -/

/-- The session-local `sync.Map` cache: the set of document key strings that
have been observed to exist.  Insert-only. -/
abbrev Cache := List String

/-- `s.cache.Load(key)` hit test. -/
def cacheHas (c : Cache) (s : String) : Bool := decide (s ∈ c)

/-- `s.cache.Store(key, true)`. -/
def cacheAdd (c : Cache) (s : String) : Cache := s :: c

/-- The observable outcome of one `Store.Exists` call: the returned
`(bool, error)` pair, the session cache afterwards, and how many
backing-store lookups (`dsCl.Get`) the call performed. -/
structure ExistsOut where
  found : Bool
  err : Option String
  cache : Cache
  dsLookups : Nat
deriving DecidableEq

/-- The `%x` rendering of a `plumbing.Hash` value.  Unlike the `[]byte`
arguments on the `Store.Store` path, `plumbing.Hash` is a named array type
with a `String()` method, so Go fmt's Stringer rule applies to `%x`: the
operand is first converted with `Hash.String()` — the 40-character lowercase
hex of the 20 bytes — and `%x` then hex-encodes the bytes of that string,
yielding 80 hex characters. -/
def hashStringerHex (hash : List Nat) : String :=
  bytesHex ((bytesHex hash).data.map Char.toNat)

/-- `fmt.Sprintf(docKeyFmt, addr, hashType, hash)` as evaluated inside
`Store.Exists`, where `hash` is a `plumbing.Hash` and `%x` therefore goes
through the Stringer rule.  This string differs from
`docKeyStr addr hashType hash` (the key `Store.Store` writes) whenever the
hash is non-empty. -/
def existsKeyStr (addr hashType : String) (hash : List Nat) : String :=
  addr ++ "-" ++ hashType ++ "-" ++ hashStringerHex hash

/-- `Store.Exists(ctx, addr, hashType, hash)`: checks the session cache first;
on a miss performs one `dsCl.Get` on the key it derives from the triple (the
double-hex `existsKeyStr`, both for the cache and for the `Get`).  `getFail`
injects a backing-store failure other than `datastore.ErrNoSuchEntity`; with
no injected failure the lookup reports exactly whether a document is present
in `st` under that derived key. -/
def StoreExists (st : DS) (getFail : Option String) (c : Cache)
    (addr hashType : String) (hash : List Nat) : ExistsOut :=
  let keyStr := existsKeyStr addr hashType hash
  if cacheHas c keyStr then
    { found := true, err := none, cache := c, dsLookups := 0 }
  else
    match getFail with
    | some e => { found := false, err := some e, cache := c, dsLookups := 1 }
    | none =>
      match dsGet st (NameKey docKind keyStr none) with
      | some _ =>
        { found := true, err := none, cache := cacheAdd c keyStr, dsLookups := 1 }
      | none => { found := false, err := none, cache := c, dsLookups := 1 }

/-! ### Concrete fixtures used by witnesses and counterexamples -/

/-- Fixture repository metadata. -/
def riA : RepoInfo :=
  ⟨"repoA", "cpe-a", "v1", [1, 2], "t1", 7, "git", "addrA", ["c"]⟩

/-- Fixture file result. -/
def fileA : FileResult := ⟨"p", [3]⟩

/-- Fixture bucket results: one bucket holding one file. -/
def brA : List (List FileResult) := [[fileA]]

/-- Fixture height-0 tree node. -/
def node0A : TreeNode := ⟨[4], 1, 0⟩

/-- Fixture height-1 node with zero files contained (skipped by `Store`). -/
def nodeZ : TreeNode := ⟨[5], 0, 1⟩

/-- Fixture height-1 node with one file contained. -/
def node1A : TreeNode := ⟨[6], 1, 1⟩

/-- Fixture tree layers. -/
def tnA : List (List TreeNode) := [[node0A], [nodeZ, node1A]]

/-- The write sequence of the fixture store call. -/
def wsA : List (Key × Record) := (storeWrites riA "md5" brA tnA).getD []

/-- The datastore contents after the fixture store call on an empty store. -/
def stA : DS :=
  ((StoreStore [] (fun _ => none) riA "md5" brA tnA).getD (Except.ok (), [])).2

/-- Height-0 node stored by the first call of the re-store scenario. -/
def nodeP : TreeNode := ⟨[1], 1, 0⟩

/-- Height-0 node stored by the second call of the re-store scenario. -/
def nodeQ : TreeNode := ⟨[2], 1, 0⟩

/-- State after storing the tree containing only `nodeP`. -/
def c5st1 : DS :=
  ((StoreStore [] (fun _ => none) riA "md5" [] [[nodeP]]).getD
    (Except.ok (), [])).2

/-- State after re-storing the same triple with a tree containing only
`nodeQ`. -/
def c5st2 : DS :=
  ((StoreStore c5st1 (fun _ => none) riA "md5" [] [[nodeQ]]).getD
    (Except.ok (), [])).2

/-- The datastore key of `nodeP`'s record, written by the first call. -/
def c5oldKey : Key :=
  (treeWrite (docKeyOf riA.addr "md5" riA.commit).base "md5" nodeP).1

/-- State after re-storing the same triple with the identical `nodeP` tree. -/
def c5ist2 : DS :=
  ((StoreStore c5st1 (fun _ => none) riA "md5" [] [[nodeP]]).getD
    (Except.ok (), [])).2

/-- Fixture bucket results containing an empty group. -/
def brW : List (List FileResult) := [[], [fileA]]

/-- Fixture base tree layer for the empty-group scenario. -/
def baseW : List TreeNode := [⟨[7], 0, 0⟩, ⟨[8], 1, 0⟩]

/-- The document/results pair of the empty-group scenario. -/
def ndW : document × List result :=
  (newDoc riA "md5" brW baseW).getD
    (⟨"", "", "", [], "", 0, "", "", [], ""⟩, [])

/-- Whether a buffered write carries a tree-node record. -/
def isTreeWrite (kr : Key × Record) : Bool :=
  match kr.2 with
  | Record.tree _ => true
  | _ => false

end OsvStorage

namespace OsvRemover

/-! ### tools/datastore-remover/main.go

Datastore orders string and blob values together as byte sequences, so the
worker queries' `FilterField("commit", ">", iStr)` comparisons are modelled as
a lexicographic order on byte lists; the stored `commit` property (a byte
slice) and the filter operand (a one-hex-digit string) are both byte
sequences. -/

/-- Lexicographic (byte sequence) strict order used by the datastore to
compare the `commit` property with the filter operand. -/
def byteSeqLt : List Nat → List Nat → Bool
  | [], [] => false
  | [], _ :: _ => true
  | _ :: _, [] => false
  | a :: as, b :: bs =>
    if a < b then true else if b < a then false else byteSeqLt as bs

/-- `strconv.FormatInt(int64(i), 16)` as a byte sequence: the lowercase
base-16 digits of `i`. -/
def formatInt16 (i : Nat) : List Nat :=
  (Nat.toDigits 16 i).map Char.toNat

/-- The number of workers spawned by `main`: `for i := 0; i < 16; i++`. -/
def workerCount : Nat := 16

/-- Whether worker `i`'s query scans an entity whose `commit` property is
`commit`: the query filters `commit > strconv.FormatInt(int64(i), 16)`. -/
def workerScans (i : Nat) (commit : List Nat) : Bool :=
  byteSeqLt (formatInt16 i) commit

/-- The worker loop's batching: keys are appended one at a time to `batch`;
as soon as `len(batch) >= batchSize` the batch is passed to `deleteBatch` and
reset; a nonempty trailing batch is flushed after the iterator is done. -/
def runBatches (batchSize : Nat) : List String → List String → List (List String)
  | [], batch => if 0 < batch.length then [batch] else []
  | k :: rest, batch =>
    if batchSize ≤ (batch ++ [k]).length then
      (batch ++ [k]) :: runBatches batchSize rest []
    else runBatches batchSize rest (batch ++ [k])

/-- All deletion batches a worker issues for the key list it scanned. -/
def workerBatches (batchSize : Nat) (keys : List String) : List (List String) :=
  runBatches batchSize keys []

/-- The cumulative effect of `deleteBatch` calls a worker makes: the total
deletion counter and the total time slept, `deleteBatch` sleeping
`waitTimeMS` milliseconds once after each batch it deletes. -/
structure RemoverTotals where
  total : Nat
  sleptMS : Nat
deriving DecidableEq, Repr

/-- `deleteBatch(ctx, client, keys)`: deletes the batch, adds its size to the
running total and sleeps `waitTimeMS` milliseconds. -/
def deleteBatch (waitTimeMS : Nat) (s : RemoverTotals) (batch : List String) :
    RemoverTotals :=
  { total := s.total + batch.length, sleptMS := s.sleptMS + waitTimeMS }

/-- One worker's whole run over the keys its query returned. -/
def workerRun (batchSize waitTimeMS : Nat) (keys : List String) :
    RemoverTotals :=
  (workerBatches batchSize keys).foldl (deleteBatch waitTimeMS) ⟨0, 0⟩

end OsvRemover

/-! ## Helper lemmas -/

namespace OsvStorage

theorem applyWrites_eq (st : DS) (ws : List (Key × Record)) :
    applyWrites st ws = ws.reverse ++ st := by
  induction ws generalizing st with
  | nil => rfl
  | cons w rest ih =>
    have h : applyWrites st (w :: rest) = applyWrites (dsPut st w.1 w.2) rest := rfl
    rw [h, ih]
    simp [dsPut]

theorem dsGet_append (l1 l2 : DS) (k : Key) :
    dsGet (l1 ++ l2) k = (dsGet l1 k).or (dsGet l2 k) := by
  unfold dsGet
  rw [List.find?_append]
  cases List.find? (fun p => decide (p.1 = k)) l1 <;> simp [Option.or]

theorem dsGet_isSome_of_mem (st : DS) (k : Key) (r : Record)
    (h : (k, r) ∈ st) : (dsGet st k).isSome := by
  have h2 : (List.find? (fun p => decide (p.1 = k)) st).isSome :=
    List.find?_isSome.mpr ⟨(k, r), h, by simp⟩
  unfold dsGet
  cases h3 : List.find? (fun p => decide (p.1 = k)) st with
  | none => rw [h3] at h2; simp at h2
  | some p => simp

theorem dsGet_applyWrites_twice (st : DS) (ws : List (Key × Record)) (k : Key) :
    dsGet (applyWrites (applyWrites st ws) ws) k = dsGet (applyWrites st ws) k := by
  simp only [applyWrites_eq]
  rw [dsGet_append, dsGet_append]
  cases dsGet ws.reverse k <;> simp [Option.or]

theorem txPutAll_ok_iff (f : Key → Option String) (ws : List (Key × Record)) :
    txPutAll f ws = Except.ok () ↔ ∀ kr ∈ ws, f kr.1 = none := by
  induction ws with
  | nil => simp [txPutAll]
  | cons kr rest ih =>
    simp only [txPutAll]
    cases hf : f kr.1 with
    | some e => simp [List.forall_mem_cons, hf]
    | none => simp [List.forall_mem_cons, hf, ih]

theorem txPutAll_error (f : Key → Option String) (ws : List (Key × Record))
    (e : String) (h : txPutAll f ws = Except.error e) :
    ∃ kr ∈ ws, f kr.1 = some e := by
  induction ws with
  | nil => simp [txPutAll] at h
  | cons kr rest ih =>
    simp only [txPutAll] at h
    cases hf : f kr.1 with
    | some e2 =>
      rw [hf] at h
      simp at h
      exact ⟨kr, by simp, by rw [hf, h]⟩
    | none =>
      rw [hf] at h
      obtain ⟨kr2, hm, he⟩ := ih h
      exact ⟨kr2, by simp [hm], he⟩

theorem newDocLoop_nil_all (base : List TreeNode) (i : Nat)
    (groups : List (List FileResult)) :
    newDocLoop [] base i groups = some [] := by
  induction groups generalizing i with
  | nil => rfl
  | cons v rest ih => simp [newDocLoop, ih]

theorem newDocLoop_none_iff (all : List (List FileResult)) (base : List TreeNode)
    (groups : List (List FileResult)) (i : Nat) :
    newDocLoop all base i groups = none ↔
      all ≠ [] ∧ ∃ j, j < groups.length ∧ base.get? (i + j) = none := by
  cases hall : all with
  | nil => simp [newDocLoop_nil_all]
  | cons a as =>
    induction groups generalizing i with
    | nil => simp [newDocLoop]
    | cons v rest ih =>
      have hlen : ¬ (a :: as).length = 0 := by simp
      simp only [newDocLoop, if_neg hlen]
      cases hb : base.get? i with
      | none =>
        simp only [hb]
        constructor
        · intro _
          exact ⟨by simp, 0, by simp, by simpa using hb⟩
        · intro _
          trivial
      | some node =>
        simp only [hb]
        rw [Option.map_eq_none', ih i.succ]
        constructor
        · rintro ⟨hne, j, hj, hjn⟩
          refine ⟨hne, j + 1, by simpa using Nat.succ_lt_succ hj, ?_⟩
          rw [show i + (j + 1) = i.succ + j by omega]
          exact hjn
        · rintro ⟨hne, j, hj, hjn⟩
          cases j with
          | zero =>
            rw [Nat.add_zero, hb] at hjn
            cases hjn
          | succ j2 =>
            refine ⟨hne, j2, by simp only [List.length_cons] at hj; omega, ?_⟩
            rw [show i.succ + j2 = i + (j2 + 1) by omega]
            exact hjn

theorem newDocLoop_some_spec (all : List (List FileResult)) (base : List TreeNode)
    (hall : all ≠ []) :
    ∀ (groups : List (List FileResult)) (i : Nat) (rs : List result),
      newDocLoop all base i groups = some rs →
      rs.length = groups.length ∧
      (∀ j v node, groups.get? j = some v → base.get? (i + j) = some node →
        rs.get? j = some (newResult v node.nodeHash)) := by
  intro groups
  induction groups with
  | nil =>
    intro i rs h
    simp [newDocLoop] at h
    subst h
    exact ⟨rfl, by intro j v node hg _; simp at hg⟩
  | cons v rest ih =>
    intro i rs h
    have hlen : ¬ all.length = 0 := fun hc => hall (List.length_eq_zero.mp hc)
    simp only [newDocLoop, if_neg hlen] at h
    cases hb : base.get? i with
    | none => rw [hb] at h; simp at h
    | some node0 =>
      rw [hb] at h
      cases hrec : newDocLoop all base (i + 1) rest with
      | none => rw [hrec] at h; simp at h
      | some rs2 =>
        rw [hrec] at h
        simp only [Option.map_some', Option.some.injEq] at h
        obtain ⟨ihlen, ihget⟩ := ih (i + 1) rs2 hrec
        subst h
        refine ⟨by simp [ihlen], ?_⟩
        intro j vv node hg hbj
        cases j with
        | zero =>
          rw [Nat.add_zero, hb] at hbj
          simp only [List.get?] at hg
          cases hg
          cases hbj
          rfl
        | succ j2 =>
          have hg2 : rest.get? j2 = some vv := by simpa using hg
          have hb2 : base.get? (i + 1 + j2) = some node := by
            rw [show i + 1 + j2 = i + (j2 + 1) by omega]
            exact hbj
          simpa using ihget j2 vv node hg2 hb2

theorem storeWrites_shape (ri : RepoInfo) (ht : String)
    (br : List (List FileResult)) (tn : List (List TreeNode))
    (ws : List (Key × Record)) (hw : storeWrites ri ht br tn = some ws) :
    ∃ l0 rest d rs,
      tn = l0 :: rest ∧
      newDoc ri ht br l0 = some (d, rs) ∧
      ws = (docKeyOf ri.addr ht ri.commit, Record.doc d)
        :: (rs.map (resultWrite (docKeyOf ri.addr ht ri.commit).base ht)
            ++ (tn.map (layerWrites (docKeyOf ri.addr ht ri.commit).base ht)).flatten) := by
  cases tn with
  | nil => simp [storeWrites] at hw
  | cons l0 rest =>
    simp only [storeWrites, List.head?] at hw
    cases hnd : newDoc ri ht br l0 with
    | none => rw [hnd] at hw; simp at hw
    | some dr =>
      rw [hnd] at hw
      simp only [Option.map_some', Option.some.injEq] at hw
      exact ⟨l0, rest, dr.1, dr.2, rfl, by rw [hnd], by rw [← hw]⟩

theorem layerWrites_flatten (dk : BaseKey) (ht : String)
    (tn : List (List TreeNode)) :
    (tn.map (layerWrites dk ht)).flatten =
      (tn.flatten.filter (fun n => decide (n.filesContained ≠ 0))).map
        (treeWrite dk ht) := by
  induction tn with
  | nil => rfl
  | cons l rest ih =>
    simp [layerWrites, List.filter_append, ih]

theorem filter_isTreeWrite_resultWrites (dk : BaseKey) (ht : String)
    (rs : List result) :
    (rs.map (resultWrite dk ht)).filter isTreeWrite = [] := by
  induction rs with
  | nil => rfl
  | cons r rest ih => simp [resultWrite, isTreeWrite, NameKey, List.filter_cons, ih]

theorem filter_isTreeWrite_treeWrites (dk : BaseKey) (ht : String)
    (ns : List TreeNode) :
    (ns.map (treeWrite dk ht)).filter isTreeWrite = ns.map (treeWrite dk ht) := by
  induction ns with
  | nil => rfl
  | cons n rest ih => simp [treeWrite, isTreeWrite, NameKey, List.filter_cons, ih]

end OsvStorage

namespace OsvStorage

theorem storeWrites_none_iff (ri : RepoInfo) (ht : String)
    (br : List (List FileResult)) (tn : List (List TreeNode)) :
    storeWrites ri ht br tn = none ↔
      tn = [] ∨ ∃ l0 rest, tn = l0 :: rest ∧ l0.length < br.length := by
  cases tn with
  | nil => simp [storeWrites]
  | cons l0 rest =>
    simp only [storeWrites, List.head?]
    rw [Option.map_eq_none']
    unfold newDoc
    rw [Option.map_eq_none', newDocLoop_none_iff]
    constructor
    · rintro ⟨hne, j, hj, hjn⟩
      right
      refine ⟨l0, rest, rfl, ?_⟩
      have hlen : l0.length ≤ 0 + j := List.get?_eq_none.mp hjn
      omega
    · rintro (h | ⟨l02, rest2, heq, hlt⟩)
      · cases h
      · injection heq with h1 h2
        subst h1
        refine ⟨?_, l0.length, hlt, ?_⟩
        · have : 0 < br.length := by omega
          exact List.ne_nil_of_length_pos this
        · exact List.get?_eq_none.mpr (by omega)

theorem storeOk_state (st st2 : DS) (failPut : Key → Option String)
    (ri : RepoInfo) (ht : String) (br : List (List FileResult))
    (tn : List (List TreeNode)) (ws : List (Key × Record))
    (hw : storeWrites ri ht br tn = some ws)
    (h : StoreStore st failPut ri ht br tn = some (Except.ok (), st2)) :
    st2 = applyWrites st ws := by
  rw [StoreStore, hw] at h
  simp only [Option.map_some', Option.some.injEq] at h
  unfold RunInTransaction at h
  cases htx : txPutAll failPut ws with
  | error e => rw [htx] at h; simp at h
  | ok u =>
    cases u
    rw [htx] at h
    simp only [Prod.mk.injEq, true_and] at h
    exact h.symm

theorem storeOk_dsGet_doc (st st2 : DS) (failPut : Key → Option String)
    (ri : RepoInfo) (ht : String) (br : List (List FileResult))
    (tn : List (List TreeNode))
    (h : StoreStore st failPut ri ht br tn = some (Except.ok (), st2)) :
    (dsGet st2 (docKeyOf ri.addr ht ri.commit)).isSome := by
  cases hw : storeWrites ri ht br tn with
  | none => rw [StoreStore, hw] at h; simp at h
  | some ws =>
    obtain ⟨l0, rest, d, rs, htn, hnd, hws⟩ := storeWrites_shape ri ht br tn ws hw
    have e := storeOk_state st st2 failPut ri ht br tn ws hw h
    subst e
    rw [applyWrites_eq]
    refine dsGet_isSome_of_mem _ _ (Record.doc d) ?_
    refine List.mem_append_left _ (List.mem_reverse.mpr ?_)
    rw [hws]
    exact List.mem_cons_self _ _

/-- C9: `Store.Store` has the unstated precondition that `treeNodes` is
non-empty and its first (height-0) layer has at least as many nodes as
`bucketResults` has groups: `Store` unconditionally indexes `treeNodes[0]` and
`newDoc` indexes `baseTreeLayer[i]` for every index of `bucketResults`, so a
violating call (including an empty `treeNodes` slice) panics — modelled as
`none` — instead of returning an error value. -/
theorem c9_store_panics_iff (st : DS) (failPut : Key → Option String)
    (ri : RepoInfo) (ht : String) (br : List (List FileResult))
    (tn : List (List TreeNode)) :
    StoreStore st failPut ri ht br tn = none ↔
      tn = [] ∨ ∃ l0 rest, tn = l0 :: rest ∧ l0.length < br.length := by
  rw [StoreStore, Option.map_eq_none']
  exact storeWrites_none_iff ri ht br tn

/-- C10: for every call of `newDoc` with a non-empty `bucketResults`, the
result list has exactly one record per bucket group — the dead guard
`len(bucketResults) == 0` inside the loop never skips a group — each record
keyed by the height-0 node hash at the same index, and an empty group still
yields a record with empty path and hash lists. -/
theorem c10_newDoc_results_per_group (ri : RepoInfo) (ht : String)
    (br : List (List FileResult)) (base : List TreeNode)
    (d : document) (rs : List result)
    (hne : br ≠ [])
    (h : newDoc ri ht br base = some (d, rs)) :
    rs.length = br.length ∧
    (∀ j group node, br.get? j = some group → base.get? j = some node →
      rs.get? j = some (newResult group node.nodeHash)) ∧
    (∀ bh : List Nat, newResult [] bh = ⟨bh, [], []⟩) := by
  unfold newDoc at h
  cases hl : newDocLoop br base 0 br with
  | none => rw [hl] at h; simp at h
  | some rs0 =>
    rw [hl] at h
    simp only [Option.map_some', Option.some.injEq, Prod.mk.injEq] at h
    obtain ⟨-, hrs⟩ := h
    subst hrs
    obtain ⟨hlen, hget⟩ := newDocLoop_some_spec br base hne br 0 rs0 hl
    refine ⟨hlen, ?_, fun bh => rfl⟩
    intro j group node hg hb
    exact hget j group node hg (by simpa using hb)

/-- C10 witness: the fixture with an empty first bucket group produces two
records, the first with empty path and hash lists. -/
theorem c10_witness :
    brW ≠ [] ∧ newDoc riA "md5" brW baseW = some (ndW.1, ndW.2) ∧
    (ndW.2.length = brW.length ∧
      (∀ j group node, brW.get? j = some group → baseW.get? j = some node →
        ndW.2.get? j = some (newResult group node.nodeHash)) ∧
      (∀ bh : List Nat, newResult [] bh = ⟨bh, [], []⟩)) :=
  ⟨by decide, rfl,
   c10_newDoc_results_per_group riA "md5" brW baseW ndW.1 ndW.2 (by decide) rfl⟩

/-- C1: every record of a `Store.Store` call is written inside one atomic
transaction: if any `Put`/`PutMulti` fails the call returns that error and the
datastore is left unchanged, and if none fails all records are committed
together. -/
theorem c1_store_transaction_atomic (st : DS) (failPut : Key → Option String)
    (ri : RepoInfo) (ht : String) (br : List (List FileResult))
    (tn : List (List TreeNode)) (ws : List (Key × Record))
    (hw : storeWrites ri ht br tn = some ws) :
    StoreStore st failPut ri ht br tn = some (RunInTransaction st failPut ws) ∧
    (∀ e st2, RunInTransaction st failPut ws = (Except.error e, st2) →
      st2 = st ∧ ∃ kr ∈ ws, failPut kr.1 = some e) ∧
    ((∀ kr ∈ ws, failPut kr.1 = none) →
      RunInTransaction st failPut ws = (Except.ok (), applyWrites st ws) ∧
      ∀ kr ∈ ws, (dsGet (applyWrites st ws) kr.1).isSome) := by
  refine ⟨by rw [StoreStore, hw]; rfl, ?_, ?_⟩
  · intro e st2 h
    unfold RunInTransaction at h
    cases htx : txPutAll failPut ws with
    | error e2 =>
      rw [htx] at h
      simp only [Prod.mk.injEq, Except.error.injEq] at h
      obtain ⟨he, hst⟩ := h
      subst he
      exact ⟨hst.symm, txPutAll_error failPut ws e2 htx⟩
    | ok u =>
      cases u
      rw [htx] at h
      simp at h
  · intro hall
    have htx : txPutAll failPut ws = Except.ok () := (txPutAll_ok_iff _ _).mpr hall
    constructor
    · unfold RunInTransaction
      rw [htx]
    · intro kr hm
      rw [applyWrites_eq]
      exact dsGet_isSome_of_mem _ kr.1 kr.2
        (List.mem_append_left _ (List.mem_reverse.mpr hm))

/-- C1 witness: the fixture call on an empty store with no injected failures
commits all of its records. -/
theorem c1_witness :
    storeWrites riA "md5" brA tnA = some wsA ∧
    (StoreStore [] (fun _ => none) riA "md5" brA tnA =
        some (RunInTransaction [] (fun _ => none) wsA) ∧
      (∀ e st2, RunInTransaction [] (fun _ => none) wsA = (Except.error e, st2) →
        st2 = [] ∧ ∃ kr ∈ wsA, (fun _ => (none : Option String)) kr.1 = some e) ∧
      ((∀ kr ∈ wsA, (fun _ => (none : Option String)) kr.1 = none) →
        RunInTransaction [] (fun _ => none) wsA =
          (Except.ok (), applyWrites [] wsA) ∧
        ∀ kr ∈ wsA, (dsGet (applyWrites [] wsA) kr.1).isSome)) :=
  ⟨rfl, c1_store_transaction_atomic [] (fun _ => none) riA "md5" brA tnA wsA rfl⟩

end OsvStorage

namespace OsvStorage

/-- C2: every record written by `Store.Store` is keyed by the deterministic
textual scheme: the document under "addr-hashType-commitHex" with no parent,
every bucket result under "bucketHashHex-hashType" with the document key as
parent, and every tree node under
"nodeHashHex-hashType-filesContained-height" with the document key as
parent. -/
theorem c2_key_scheme (ri : RepoInfo) (ht : String)
    (br : List (List FileResult)) (tn : List (List TreeNode))
    (ws : List (Key × Record)) (hw : storeWrites ri ht br tn = some ws) :
    ∀ kr ∈ ws,
      (∀ d, kr.2 = Record.doc d →
        kr.1 = ⟨⟨"RepoIndex", ri.addr ++ "-" ++ ht ++ "-" ++ bytesHex ri.commit⟩,
                none⟩) ∧
      (∀ r, kr.2 = Record.res r →
        kr.1 = ⟨⟨"RepoIndexBucket", bytesHex r.bucketHash ++ "-" ++ ht⟩,
                some ⟨"RepoIndex",
                      ri.addr ++ "-" ++ ht ++ "-" ++ bytesHex ri.commit⟩⟩) ∧
      (∀ n, kr.2 = Record.tree n →
        kr.1 = ⟨⟨"RepoIndexResultTree",
                 bytesHex n.nodeHash ++ "-" ++ ht ++ "-"
                   ++ toString n.filesContained ++ "-" ++ toString n.height⟩,
                some ⟨"RepoIndex",
                      ri.addr ++ "-" ++ ht ++ "-" ++ bytesHex ri.commit⟩⟩) := by
  obtain ⟨l0, rest, d, rs, htn, hnd, hws⟩ := storeWrites_shape ri ht br tn ws hw
  subst hws
  intro kr hm
  rcases List.mem_cons.mp hm with hdoc | hm2
  · subst hdoc
    refine ⟨fun d2 _ => rfl, fun r hr => ?_, fun n hn => ?_⟩
    · simp at hr
    · simp at hn
  · rcases List.mem_append.mp hm2 with hres | htree
    · obtain ⟨r, hrmem, hkr⟩ := List.mem_map.mp hres
      subst hkr
      refine ⟨fun d2 hd => ?_, fun r2 hr => ?_, fun n hn => ?_⟩
      · simp [resultWrite, NameKey] at hd
      · have h2 : Record.res r = Record.res r2 := hr
        injection h2 with h3
        subst h3
        rfl
      · simp [resultWrite, NameKey] at hn
    · rw [layerWrites_flatten] at htree
      obtain ⟨n, hnmem, hkr⟩ := List.mem_map.mp htree
      subst hkr
      refine ⟨fun d2 hd => ?_, fun r hr => ?_, fun n2 hn => ?_⟩
      · simp [treeWrite, NameKey] at hd
      · simp [treeWrite, NameKey] at hr
      · have h2 : Record.tree n = Record.tree n2 := hn
        injection h2 with h3
        subst h3
        rfl

/-- C2 witness: the fixture call's writes all follow the key scheme. -/
theorem c2_witness :
    storeWrites riA "md5" brA tnA = some wsA ∧
    ∀ kr ∈ wsA,
      (∀ d, kr.2 = Record.doc d →
        kr.1 = ⟨⟨"RepoIndex",
                 riA.addr ++ "-" ++ "md5" ++ "-" ++ bytesHex riA.commit⟩,
                none⟩) ∧
      (∀ r, kr.2 = Record.res r →
        kr.1 = ⟨⟨"RepoIndexBucket", bytesHex r.bucketHash ++ "-" ++ "md5"⟩,
                some ⟨"RepoIndex",
                      riA.addr ++ "-" ++ "md5" ++ "-" ++ bytesHex riA.commit⟩⟩) ∧
      (∀ n, kr.2 = Record.tree n →
        kr.1 = ⟨⟨"RepoIndexResultTree",
                 bytesHex n.nodeHash ++ "-" ++ "md5" ++ "-"
                   ++ toString n.filesContained ++ "-" ++ toString n.height⟩,
                some ⟨"RepoIndex",
                      riA.addr ++ "-" ++ "md5" ++ "-" ++ bytesHex riA.commit⟩⟩) :=
  ⟨rfl, c2_key_scheme riA "md5" brA tnA wsA rfl⟩

/-- C3: a tree-node record is persisted by `Store.Store` exactly for the
nodes whose `FilesContained` is non-zero: the tree writes are precisely the
filtered concatenation of the layers, no persisted tree record has
`filesContained = 0`, and every node with a non-zero count is written. -/
theorem c3_tree_nodes_filtered (ri : RepoInfo) (ht : String)
    (br : List (List FileResult)) (tn : List (List TreeNode))
    (ws : List (Key × Record)) (hw : storeWrites ri ht br tn = some ws) :
    ws.filter isTreeWrite =
      (tn.flatten.filter (fun n => decide (n.filesContained ≠ 0))).map
        (treeWrite (docKeyOf ri.addr ht ri.commit).base ht) ∧
    (∀ kr ∈ ws, ∀ n, kr.2 = Record.tree n → n.filesContained ≠ 0) ∧
    (∀ n ∈ tn.flatten, n.filesContained ≠ 0 →
      treeWrite (docKeyOf ri.addr ht ri.commit).base ht n ∈ ws) := by
  obtain ⟨l0, rest, d, rs, htn, hnd, hws⟩ := storeWrites_shape ri ht br tn ws hw
  have hfirst : ws.filter isTreeWrite =
      (tn.flatten.filter (fun n => decide (n.filesContained ≠ 0))).map
        (treeWrite (docKeyOf ri.addr ht ri.commit).base ht) := by
    rw [hws]
    rw [List.filter_cons]
    have hdocf : isTreeWrite (docKeyOf ri.addr ht ri.commit, Record.doc d) = false := rfl
    rw [hdocf]
    simp only [Bool.false_eq_true, if_false, List.filter_append,
      filter_isTreeWrite_resultWrites, List.nil_append, layerWrites_flatten,
      filter_isTreeWrite_treeWrites]
  refine ⟨hfirst, ?_, ?_⟩
  · intro kr hm n hn
    have hp : isTreeWrite kr = true := by
      unfold isTreeWrite
      rw [hn]
    have hmem : kr ∈ ws.filter isTreeWrite := List.mem_filter.mpr ⟨hm, hp⟩
    rw [hfirst] at hmem
    obtain ⟨n2, hn2, hkr⟩ := List.mem_map.mp hmem
    have hne : n2.filesContained ≠ 0 := by
      simpa using (List.mem_filter.mp hn2).2
    subst hkr
    have h2 : Record.tree n2 = Record.tree n := hn
    injection h2 with h3
    subst h3
    exact hne
  · intro n hmem hne
    have hmem2 : treeWrite (docKeyOf ri.addr ht ri.commit).base ht n ∈
        ws.filter isTreeWrite := by
      rw [hfirst]
      exact List.mem_map_of_mem _ (List.mem_filter.mpr ⟨hmem, by simpa using hne⟩)
    exact List.mem_of_mem_filter hmem2

/-- C3 witness: in the fixture tree, the zero-count node is not written and
the non-zero nodes are. -/
theorem c3_witness :
    storeWrites riA "md5" brA tnA = some wsA ∧
    (wsA.filter isTreeWrite =
      (tnA.flatten.filter (fun n => decide (n.filesContained ≠ 0))).map
        (treeWrite (docKeyOf riA.addr "md5" riA.commit).base "md5") ∧
    (∀ kr ∈ wsA, ∀ n, kr.2 = Record.tree n → n.filesContained ≠ 0) ∧
    (∀ n ∈ tnA.flatten, n.filesContained ≠ 0 →
      treeWrite (docKeyOf riA.addr "md5" riA.commit).base "md5" n ∈ wsA)) :=
  ⟨rfl, c3_tree_nodes_filtered riA "md5" brA tnA wsA rfl⟩

end OsvStorage

namespace OsvStorage

theorem layerWrites_all_nil (dk : BaseKey) (ht : String)
    (tn : List (List TreeNode)) (h : ∀ l ∈ tn, l = []) :
    (tn.map (layerWrites dk ht)).flatten = [] := by
  induction tn with
  | nil => rfl
  | cons l rest ih =>
    have hl : l = [] := h l (by simp)
    subst hl
    simpa [layerWrites] using ih (fun l2 hm => h l2 (by simp [hm]))

/-- C4 counterexample: a call with zero bucket results and zero tree nodes
(an empty `treeNodes` slice) panics on `treeNodes[0]` (modelled as `none`)
instead of succeeding. -/
theorem c4_counterexample :
    StoreStore [] (fun _ => none) riA "md5" [] [] = none := rfl

/-- C4 (amended): a call with zero bucket results succeeds and commits only
the document record, provided `treeNodes` still contains at least one
(empty) layer; with a completely empty `treeNodes` slice the call panics
instead. -/
theorem c4_amended_empty_store_succeeds (st : DS) (ri : RepoInfo) (ht : String)
    (tn : List (List TreeNode)) (hne : tn ≠ []) (hempty : ∀ l ∈ tn, l = []) :
    ∃ d : document,
      storeWrites ri ht [] tn =
        some [(docKeyOf ri.addr ht ri.commit, Record.doc d)] ∧
      StoreStore st (fun _ => none) ri ht [] tn =
        some (Except.ok (), dsPut st (docKeyOf ri.addr ht ri.commit)
          (Record.doc d)) := by
  cases tn with
  | nil => exact absurd rfl hne
  | cons l0 rest =>
    have hl0 : l0 = [] := hempty l0 (by simp)
    subst hl0
    have hsw : storeWrites ri ht [] ([] :: rest) =
        some [(docKeyOf ri.addr ht ri.commit, Record.doc (docOf ri ht))] := by
      simp only [storeWrites, List.head?]
      have hnd : newDoc ri ht [] [] = some (docOf ri ht, []) := rfl
      rw [hnd]
      simp only [Option.map_some', List.map_nil, List.nil_append]
      rw [layerWrites_all_nil _ _ _ hempty]
    refine ⟨docOf ri ht, hsw, ?_⟩
    rw [StoreStore, hsw]
    rfl

/-- C4 witness: the amended statement at a concrete call with one empty
layer. -/
theorem c4_witness :
    (([[]] : List (List TreeNode)) ≠ [] ∧
      ∀ l ∈ ([[]] : List (List TreeNode)), l = []) ∧
    ∃ d : document,
      storeWrites riA "md5" [] [[]] =
        some [(docKeyOf riA.addr "md5" riA.commit, Record.doc d)] ∧
      StoreStore [] (fun _ => none) riA "md5" [] [[]] =
        some (Except.ok (), dsPut [] (docKeyOf riA.addr "md5" riA.commit)
          (Record.doc d)) :=
  ⟨⟨by decide, by decide⟩,
   c4_amended_empty_store_succeeds [] riA "md5" [[]] (by decide) (by decide)⟩

/-- C5 counterexample: re-storing the same (address, hashType, commit) triple
with a different tree does not remove the first call's records: after the
second call the tree-node record written only by the first call is still
committed even though its key is not among the second call's writes. -/
theorem c5_counterexample :
    StoreStore [] (fun _ => none) riA "md5" [] [[nodeP]] =
      some (Except.ok (), c5st1) ∧
    StoreStore c5st1 (fun _ => none) riA "md5" [] [[nodeQ]] =
      some (Except.ok (), c5st2) ∧
    c5oldKey ∉ ((storeWrites riA "md5" [] [[nodeQ]]).getD []).map Prod.fst ∧
    dsGet c5st2 c5oldKey = some (Record.tree nodeP) :=
  ⟨rfl, rfl, by decide, by decide⟩

/-- C5 (amended): `Store.Store` overwrites per key and never deletes, so a
second call for the same triple with the same bucket results and tree nodes
leaves the store observationally identical to the state after the first call
(exactly one document and the latest records, never a mixture); stale child
records from an earlier call with different contents are, however, not
removed (see the counterexample). -/
theorem c5_amended_idempotent_rewrite (st st1 st2 : DS)
    (failPut : Key → Option String) (ri : RepoInfo) (ht : String)
    (br : List (List FileResult)) (tn : List (List TreeNode))
    (h1 : StoreStore st failPut ri ht br tn = some (Except.ok (), st1))
    (h2 : StoreStore st1 failPut ri ht br tn = some (Except.ok (), st2)) :
    (∀ k, dsGet st2 k = dsGet st1 k) ∧
    (dsGet st2 (docKeyOf ri.addr ht ri.commit)).isSome := by
  cases hw : storeWrites ri ht br tn with
  | none => rw [StoreStore, hw] at h1; simp at h1
  | some ws =>
    have e1 := storeOk_state st st1 failPut ri ht br tn ws hw h1
    have e2 := storeOk_state st1 st2 failPut ri ht br tn ws hw h2
    subst e1
    subst e2
    exact ⟨dsGet_applyWrites_twice st ws,
      storeOk_dsGet_doc _ _ failPut ri ht br tn h2⟩

/-- C5 witness: re-storing the fixture triple with identical arguments leaves
every key's record unchanged. -/
theorem c5_witness :
    StoreStore [] (fun _ => none) riA "md5" [] [[nodeP]] =
      some (Except.ok (), c5st1) ∧
    StoreStore c5st1 (fun _ => none) riA "md5" [] [[nodeP]] =
      some (Except.ok (), c5ist2) ∧
    ((∀ k, dsGet c5ist2 k = dsGet c5st1 k) ∧
      (dsGet c5ist2 (docKeyOf riA.addr "md5" riA.commit)).isSome) :=
  ⟨rfl, rfl,
   c5_amended_idempotent_rewrite [] c5st1 c5ist2 (fun _ => none) riA "md5" []
     [[nodeP]] rfl rfl⟩

end OsvStorage

namespace OsvStorage

/-- C6 (code bug): `Store.Store` formats the document key from
`repoInfo.Commit[:]`, a plain byte slice, while `Store.Exists` formats the
`plumbing.Hash` value itself with `%x`; by Go fmt's Stringer rule the latter
hex-encodes the 40-character hex string returned by `Hash.String()`, so the
lookup (and cache) key of `Exists` never equals the document key `Store`
writes.  Immediately after a successful `Store` for the fixture triple, the
document is present under its scheme key, yet `Exists` for the same triple
performs its one backing lookup under the other key, finds nothing, and
returns `(false, nil)` instead of true. -/
theorem c6_bug_exists_false_after_store :
    StoreStore [] (fun _ => none) riA "md5" brA tnA =
      some (Except.ok (), stA) ∧
    existsKeyStr riA.addr "md5" riA.commit ≠
      docKeyStr riA.addr "md5" riA.commit ∧
    (dsGet stA
      (NameKey docKind (docKeyStr riA.addr "md5" riA.commit) none)).isSome =
      true ∧
    StoreExists stA none [] riA.addr "md5" riA.commit =
      { found := false, err := none, cache := [], dsLookups := 1 } :=
  ⟨rfl, by decide, by decide, by decide⟩

/-- C7 counterexample: the claim ties `(false, nil)` to the absence of a
document for the triple's key; after the fixture store the triple's document
exists under its scheme key, yet `Exists` for the same triple returns
`(false, nil)` — its backing lookup uses the double-hex-encoded key
instead. -/
theorem c7_counterexample :
    dsGet stA (NameKey docKind (docKeyStr riA.addr "md5" riA.commit) none)
      ≠ none ∧
    (StoreExists stA none [] riA.addr "md5" riA.commit).found = false ∧
    (StoreExists stA none [] riA.addr "md5" riA.commit).err = none :=
  ⟨by decide, by decide, by decide⟩

/-- C7 (amended): on a session-cache miss, `Store.Exists` returns
`(false, nil)` exactly when the backing lookup reports that no document
exists under the key `Exists` derives for the triple — the double-hex
`existsKeyStr`, which differs from the document key `Store` writes — returns
`(false, err)` with a non-nil error when the lookup fails for any other
reason, and always performs exactly one backing lookup. -/
theorem c7_amended_exists_miss_semantics (st : DS) (gf : Option String)
    (c : Cache) (addr ht : String) (hash : List Nat)
    (hmiss : cacheHas c (existsKeyStr addr ht hash) = false) :
    ((StoreExists st gf c addr ht hash).found = false ∧
        (StoreExists st gf c addr ht hash).err = none ↔
      gf = none ∧
        dsGet st (NameKey docKind (existsKeyStr addr ht hash) none) = none) ∧
    (∀ e, gf = some e →
      StoreExists st gf c addr ht hash =
        { found := false, err := some e, cache := c, dsLookups := 1 }) ∧
    (StoreExists st gf c addr ht hash).dsLookups = 1 := by
  cases gf with
  | some e =>
    refine ⟨?_, ?_, ?_⟩
    · simp [StoreExists, hmiss]
    · intro e2 he
      injection he with he2
      subst he2
      simp [StoreExists, hmiss]
    · simp [StoreExists, hmiss]
  | none =>
    cases hg : dsGet st (NameKey docKind (existsKeyStr addr ht hash) none) with
    | some r =>
      refine ⟨?_, ?_, ?_⟩
      · simp [StoreExists, hmiss, hg]
      · intro e2 he
        cases he
      · simp [StoreExists, hmiss, hg]
    | none =>
      refine ⟨?_, ?_, ?_⟩
      · simp [StoreExists, hmiss, hg]
      · intro e2 he
        cases he
      · simp [StoreExists, hmiss, hg]

/-- C7 witness: the amended miss-path characterisation at a concrete empty
cache and empty store. -/
theorem c7_witness :
    cacheHas [] (existsKeyStr riA.addr "md5" riA.commit) = false ∧
    (((StoreExists [] none [] riA.addr "md5" riA.commit).found = false ∧
        (StoreExists [] none [] riA.addr "md5" riA.commit).err = none ↔
      (none : Option String) = none ∧
        dsGet []
            (NameKey docKind (existsKeyStr riA.addr "md5" riA.commit) none) =
          none) ∧
    (∀ e, (none : Option String) = some e →
      StoreExists [] none [] riA.addr "md5" riA.commit =
        { found := false, err := some e, cache := [], dsLookups := 1 }) ∧
    (StoreExists [] none [] riA.addr "md5" riA.commit).dsLookups = 1) :=
  ⟨rfl, c7_amended_exists_miss_semantics [] none [] riA.addr "md5" riA.commit
    rfl⟩

end OsvStorage

namespace OsvRemover

theorem byteSeqLt_trans : ∀ a b c : List Nat,
    byteSeqLt a b = true → byteSeqLt b c = true → byteSeqLt a c = true := by
  intro a
  induction a with
  | nil =>
    intro b c hab hbc
    cases b with
    | nil => simp [byteSeqLt] at hab
    | cons b0 bs =>
      cases c with
      | nil => simp [byteSeqLt] at hbc
      | cons c0 cs => rfl
  | cons a0 as ih =>
    intro b c hab hbc
    cases b with
    | nil => simp [byteSeqLt] at hab
    | cons b0 bs =>
      cases c with
      | nil => simp [byteSeqLt] at hbc
      | cons c0 cs =>
        simp only [byteSeqLt] at hab hbc ⊢
        split_ifs at hab hbc ⊢ <;>
          first
            | rfl
            | omega
            | exact ih bs cs hab hbc

theorem formatInt16_lt (i j : Nat) (hij : i < j) (hj : j < 16) :
    byteSeqLt (formatInt16 i) (formatInt16 j) = true := by
  have h : ∀ i2, i2 < 16 → ∀ j2, j2 < 16 → i2 < j2 →
      byteSeqLt (formatInt16 i2) (formatInt16 j2) = true := by decide
  exact h i (lt_trans hij hj) j hj hij

theorem runBatches_flatten (bs : Nat) (keys batch : List String) :
    (runBatches bs keys batch).flatten = batch ++ keys := by
  induction keys generalizing batch with
  | nil =>
    by_cases h : 0 < batch.length
    · simp [runBatches, h]
    · have : batch = [] := by
        cases batch with
        | nil => rfl
        | cons x xs => simp at h
      subst this
      simp [runBatches]
  | cons k rest ih =>
    simp only [runBatches]
    by_cases h : bs ≤ (batch ++ [k]).length
    · rw [if_pos h]
      simp [ih]
    · rw [if_neg h]
      rw [ih]
      simp

theorem runBatches_size (bs : Nat) (keys : List String) :
    ∀ batch : List String, 0 < bs → batch.length < bs →
      ∀ b ∈ runBatches bs keys batch, b ≠ [] ∧ b.length ≤ bs := by
  induction keys with
  | nil =>
    intro batch hbs hlen b hb
    simp only [runBatches] at hb
    by_cases h : 0 < batch.length
    · rw [if_pos h] at hb
      simp only [List.mem_singleton] at hb
      subst hb
      exact ⟨List.ne_nil_of_length_pos h, le_of_lt hlen⟩
    · rw [if_neg h] at hb
      simp at hb
  | cons k rest ih =>
    intro batch hbs hlen b hb
    simp only [runBatches] at hb
    by_cases h : bs ≤ (batch ++ [k]).length
    · rw [if_pos h] at hb
      rcases List.mem_cons.mp hb with rfl | hb2
      · refine ⟨by simp, ?_⟩
        simp only [List.length_append, List.length_singleton]
        omega
      · exact ih [] hbs (by simpa using hbs) b hb2
    · rw [if_neg h] at hb
      refine ih (batch ++ [k]) hbs ?_ b hb
      simp only [List.length_append, List.length_singleton] at h ⊢
      omega

theorem foldl_deleteBatch (waitMS : Nat) (bs : List (List String)) (t s : Nat) :
    bs.foldl (deleteBatch waitMS) ⟨t, s⟩ =
      ⟨t + (bs.map List.length).sum, s + bs.length * waitMS⟩ := by
  induction bs generalizing t s with
  | nil => simp
  | cons b rest ih =>
    have hstep : (b :: rest).foldl (deleteBatch waitMS) ⟨t, s⟩ =
        rest.foldl (deleteBatch waitMS) ⟨t + b.length, s + waitMS⟩ := rfl
    rw [hstep, ih]
    simp only [List.map_cons, List.sum_cons, List.length_cons,
      RemoverTotals.mk.injEq, Nat.succ_mul]
    constructor <;> ring

/-- C8 counterexample: the workers' deletion queries do not partition the key
space into pairwise disjoint ranges — an entity whose commit property is the
byte 0x32 (the character "2") is scanned by worker 0 and by worker 1, so it
is not scanned and deleted by exactly one worker. -/
theorem c8_counterexample :
    workerScans 0 [50] = true ∧ workerScans 1 [50] = true := by decide

/-- C8 (amended): the remover runs a fixed 16 workers, but worker i's query
scans every entity whose commit property is greater than the single hex digit
of i, so the 16 scanned ranges are nested (every key scanned by worker j is
also scanned by each worker i ≤ j) rather than pairwise disjoint; each worker
deletes in batches of at most the configured batch size covering exactly the
keys it scanned, and sleeps the configured delay once per deletion batch. -/
theorem c8_amended_worker_semantics :
    workerCount = 16 ∧
    (∀ (i j : Nat) (commit : List Nat), i ≤ j → j < workerCount →
      workerScans j commit = true → workerScans i commit = true) ∧
    (∀ (bs : Nat) (keys : List String), 0 < bs →
      (workerBatches bs keys).flatten = keys ∧
      ∀ b ∈ workerBatches bs keys, b ≠ [] ∧ b.length ≤ bs) ∧
    (∀ (bs waitMS : Nat) (keys : List String),
      workerRun bs waitMS keys =
        ⟨keys.length, (workerBatches bs keys).length * waitMS⟩) := by
  refine ⟨rfl, ?_, ?_, ?_⟩
  · intro i j commit hij hj hscan
    rcases Nat.eq_or_lt_of_le hij with rfl | hlt
    · exact hscan
    · exact byteSeqLt_trans _ _ _ (formatInt16_lt i j hlt hj) hscan
  · intro bs keys hbs
    refine ⟨by simpa using runBatches_flatten bs keys [], ?_⟩
    exact runBatches_size bs keys [] hbs (by simpa using hbs)
  · intro bs waitMS keys
    unfold workerRun
    rw [foldl_deleteBatch]
    have hsum : ((workerBatches bs keys).map List.length).sum = keys.length := by
      show ((runBatches bs keys []).map List.length).sum = keys.length
      rw [← List.length_flatten, runBatches_flatten bs keys []]
      simp
    rw [hsum]
    simp

/-- C8 witness: the amended facts at concrete inputs — worker 2 inherits
worker 5's scan of a key, and three keys in batches of two give two delete
batches and two sleeps. -/
theorem c8_witness :
    (2 ≤ 5 ∧ 5 < workerCount ∧ workerScans 5 [103] = true ∧
      workerScans 2 [103] = true) ∧
    (0 < 2 ∧
      ((workerBatches 2 ["a", "b", "c"]).flatten = ["a", "b", "c"] ∧
        ∀ b ∈ workerBatches 2 ["a", "b", "c"], b ≠ [] ∧ b.length ≤ 2) ∧
      workerRun 2 7 ["a", "b", "c"] =
        ⟨(["a", "b", "c"] : List String).length,
         (workerBatches 2 ["a", "b", "c"]).length * 7⟩) :=
  ⟨⟨by decide, by decide, by decide,
    c8_amended_worker_semantics.2.1 2 5 [103] (by decide) (by decide) (by decide)⟩,
   ⟨by decide, c8_amended_worker_semantics.2.2.1 2 ["a", "b", "c"] (by decide),
    c8_amended_worker_semantics.2.2.2 2 7 ["a", "b", "c"]⟩⟩

end OsvRemover
